import Mathlib

/-!
Shallow embedding of `src/bridges/rust/src/lib.rs` (crate `language-bridges`,
Rust FFI bridge to an external HKDF-style key-derivation primitive).

Bytes are modelled as `Nat` (no byte arithmetic occurs in the source).
A Rust slice `&[u8]` is a `List Nat`; the pair `(as_ptr, len)` that crosses
the foreign boundary is modelled as the list of pointed-to bytes together
with the explicitly forwarded length.

The external symbol `hkdf_derive` is not implemented in this repository:
its observable behaviour toward this caller is the sequence of writes it
performs into the 64-byte output buffer it is handed, as a function of the
four forwarded arguments `(password, password_len, salt, salt_len)`.  The
source's return type is written `[64; u8]`, a transposition of the intended
`[u8; 64]` (the buffer the body builds is `[0u8; 64]`); the embedding uses
the intended 64-byte array, i.e. a `List Nat` of length 64.
-/

namespace LanguageBridges

/-- One write performed by the external primitive into the output buffer:
`(offset into the buffer, byte value written)`. -/
abbrev BufWrite := Nat × Nat

/-- Model of the external C function
`fn hkdf_derive(password: *const u8, password_len: usize, salt: *const u8, salt_len: usize, key: *mut u8)`.
It is a deterministic oracle: given the four forwarded arguments it performs
a fixed sequence of writes into the 64-byte output buffer. -/
structure Hkdf where
  writes : List Nat → Nat → List Nat → Nat → List BufWrite

/-- Apply a sequence of buffer writes, left to right, to a buffer.  An
offset outside the buffer is a no-op, as in `List.set`. -/
def applyWrites (buf : List Nat) (ws : List BufWrite) : List Nat :=
  ws.foldl (fun b w => b.set w.1 w.2) buf

/-- The value of the last write in `ws` whose offset is `i`, if any
(later writes shadow earlier ones). -/
def lastWrite (ws : List BufWrite) (i : Nat) : Option Nat :=
  match ws with
  | [] => none
  | w :: rest =>
      match lastWrite rest i with
      | some v => some v
      | none => if w.1 = i then some w.2 else none

/-- One observable foreign-call event issued by this crate. -/
inductive FfiEvent where
  | hkdfCall (password : List Nat) (passwordLen : Nat)
      (salt : List Nat) (saltLen : Nat)
deriving DecidableEq

/-- Embedding of the body of `derive_key`, instrumented with the trace of
foreign calls it issues:

    let mut key = [0u8; 64];
    unsafe { hkdf_derive(password.as_ptr(), password.len(), salt.as_ptr(), salt.len(), key.as_mut_ptr()); }
    key

The single `hkdf_derive` invocation contributes one trace event carrying
exactly the forwarded arguments. -/
def derive_key_run (h : Hkdf) (password salt : List Nat) :
    List Nat × List FfiEvent :=
  let key : List Nat := List.replicate 64 0
  let key := applyWrites key (h.writes password password.length salt salt.length)
  (key, [FfiEvent.hkdfCall password password.length salt salt.length])

/-- `pub fn derive_key(password: &[u8], salt: &[u8]) -> [u8; 64]` (return
type as intended; the source writes the ill-formed `[64; u8]`). -/
def derive_key (h : Hkdf) (password salt : List Nat) : List Nat :=
  (derive_key_run h password salt).1

/-- The caller-visible memory around one call: the caller-owned password
and salt buffers (borrowed read-only by `derive_key`) and the location the
returned key is stored into. -/
structure CallerState where
  password : List Nat
  salt : List Nat
  out : List Nat
deriving DecidableEq

/-- A call `st.out = derive_key(&st.password, &st.salt)` as a transformer
on the caller-visible memory. -/
def derive_key_call (h : Hkdf) (st : CallerState) : CallerState :=
  { st with out := derive_key h st.password st.salt }

/-- `pub extern "C" fn rust_callback(data: *const u8, len: usize)`, body
`let _ = (data, len);`.  The raw pointer is modelled as `Option (List Nat)`
(`none` = null pointer, `some bytes` = pointer to `bytes`). -/
def rust_callback (data : Option (List Nat)) (len : Nat) : Unit :=
  let _ := (data, len)
  ()

/-- A call to `rust_callback` as a transformer on the caller-visible
memory, paired with its (unit) return value. -/
def rust_callback_call (st : CallerState) (data : Option (List Nat))
    (len : Nat) : CallerState × Unit :=
  (st, rust_callback data len)

/-- A concrete oracle used to instantiate hypotheses: it performs no
writes at all. -/
def hkdfNone : Hkdf := ⟨fun _ _ _ _ => []⟩

/-- A concrete oracle that fully overwrites the buffer with the constant
byte 7. -/
def hkdfConst7 : Hkdf :=
  ⟨fun _ _ _ _ => (List.range 64).map (fun i => (i, 7))⟩

/-! ### Basic lemmas about `applyWrites` -/

theorem applyWrites_nil (buf : List Nat) : applyWrites buf [] = buf := rfl

theorem applyWrites_cons (buf : List Nat) (w : BufWrite) (ws : List BufWrite) :
    applyWrites buf (w :: ws) = applyWrites (buf.set w.1 w.2) ws := rfl

theorem applyWrites_length (ws : List BufWrite) (buf : List Nat) :
    (applyWrites buf ws).length = buf.length := by
  induction ws generalizing buf with
  | nil => rfl
  | cons w ws ih =>
      rw [applyWrites_cons, ih, List.length_set]

theorem applyWrites_get? (ws : List BufWrite) (buf : List Nat) (i : Nat) :
    (applyWrites buf ws)[i]? =
      match lastWrite ws i with
      | some v => if i < buf.length then some v else none
      | none => buf[i]? := by
  induction ws generalizing buf with
  | nil =>
      simp only [applyWrites_nil, lastWrite]
  | cons w ws ih =>
      rw [applyWrites_cons, ih]
      simp only [lastWrite, List.length_set]
      cases hlast : lastWrite ws i with
      | some v => simp
      | none =>
          simp only []
          by_cases hw : w.1 = i
          · subst hw
            simp [List.getElem?_set_self]
            by_cases hlt : w.1 < buf.length
            · simp [hlt]
            · have hle : buf.length ≤ w.1 := Nat.le_of_not_lt hlt
              simp only [hlt, if_false]
              exact List.getElem?_eq_none (by simpa [List.length_set] using hle)
          · simp [List.getElem?_set_ne hw, hw]

theorem lastWrite_of_not_written (ws : List BufWrite) (i : Nat)
    (hni : ∀ w ∈ ws, w.1 ≠ i) : lastWrite ws i = none := by
  induction ws with
  | nil => rfl
  | cons w ws ih =>
      simp only [lastWrite]
      rw [ih (fun v hv => hni v (List.mem_cons_of_mem w hv))]
      simp [hni w (List.mem_cons_self w ws)]

theorem derive_key_eq (h : Hkdf) (password salt : List Nat) :
    derive_key h password salt =
      applyWrites (List.replicate 64 0)
        (h.writes password password.length salt salt.length) := rfl

theorem derive_key_getElem? (h : Hkdf) (password salt : List Nat) (i : Nat) :
    (derive_key h password salt)[i]? =
      match lastWrite (h.writes password password.length salt salt.length) i with
      | some v => if i < 64 then some v else none
      | none => if i < 64 then some 0 else none := by
  rw [derive_key_eq, applyWrites_get?]
  cases lastWrite (h.writes password password.length salt salt.length) i with
  | some v => simp
  | none => simp only [List.getElem?_replicate]

theorem derive_key_length_eq (h : Hkdf) (password salt : List Nat) :
    (derive_key h password salt).length = 64 := by
  rw [derive_key_eq, applyWrites_length, List.length_replicate]

/-! ### Claim theorems -/

/-- Claim C1: for every password byte sequence and every salt byte sequence,
each of length ≥ 0 (including both empty), `derive_key password salt`
returns a sequence of exactly 64 bytes.  This holds of the function's
behaviour (the body builds and returns a mutated `[0u8; 64]` buffer); the
source's declared return type, however, is the ill-formed `[64; u8]`, a
transposition of the intended `[u8; 64]`, so the crate as written does not
compile.  The theorem evaluates the intent-corrected embedding. -/
theorem derive_key_returns_64_bytes (h : Hkdf) (password salt : List Nat) :
    (derive_key h password salt).length = 64 :=
  derive_key_length_eq h password salt

/-- Claim C2: assuming the external primitive `hkdf_derive` is deterministic
(here: it is modelled as a function `Hkdf`, so any fixed oracle is
deterministic), `derive_key` is deterministic: two calls on equal
(password, salt) pairs produce identical outputs. -/
theorem derive_key_deterministic (h : Hkdf) (p1 s1 p2 s2 : List Nat)
    (hp : p1 = p2) (hs : s1 = s2) :
    derive_key h p1 s1 = derive_key h p2 s2 := by
  rw [hp, hs]

theorem derive_key_deterministic_witness :
    derive_key hkdfConst7 [1, 2] [3] = derive_key hkdfConst7 [1, 2] [3] :=
  derive_key_deterministic hkdfConst7 [1, 2] [3] [1, 2] [3] rfl rfl

/-- Claim C3: `derive_key` is a pure pass-through wrapper: under the
foreign-primitive contract that `hkdf_derive`, handed the forwarded
arguments (password bytes, password length, salt bytes, salt length),
writes exactly the 64 bytes of `out` into positions 0..63 of the output
buffer, the value `derive_key` returns equals exactly those 64 bytes.
The arguments consulted in the hypothesis are literally
`password, password.length, salt, salt.length`: the slice contents and
lengths are forwarded unchanged. -/
theorem derive_key_passthrough (h : Hkdf) (password salt out : List Nat)
    (hout : out.length = 64)
    (hw : ∀ i, i < 64 →
      lastWrite (h.writes password password.length salt salt.length) i = out[i]?) :
    derive_key h password salt = out := by
  apply List.ext_getElem?
  intro i
  rw [derive_key_getElem?]
  by_cases hi : i < 64
  · rw [hw i hi]
    have hiout : i < out.length := hout ▸ hi
    rw [List.getElem?_eq_getElem hiout]
    simp [hi]
  · have hnone : out[i]? = none :=
      List.getElem?_eq_none (hout ▸ Nat.le_of_not_lt hi)
    rw [hnone]
    cases lastWrite (h.writes password password.length salt salt.length) i with
    | some v => simp [hi]
    | none => simp [hi]

theorem derive_key_passthrough_witness :
    derive_key hkdfConst7 [9] [] = List.replicate 64 7 :=
  derive_key_passthrough hkdfConst7 [9] [] (List.replicate 64 7)
    (by decide) (by decide)

/-- Claim C4: `derive_key` defines no error conditions and forwards the
call unconditionally: for every (password, salt) its result is, without
any branching, error result or exception path, the outcome of the single
forwarded foreign call applied to the zero-initialized 64-byte buffer, and
a derived key is always returned (the result type is a plain byte list,
not an error-carrying type). -/
theorem derive_key_no_error_channel (h : Hkdf) (password salt : List Nat) :
    derive_key h password salt =
      applyWrites (List.replicate 64 0)
        (h.writes password password.length salt salt.length) := rfl

/-- Claim C5: a call to `derive_key` has no side effects beyond the write
into the 64-byte output location: the caller-owned password and salt
buffers are unchanged when the call returns. -/
theorem derive_key_frame (h : Hkdf) (st : CallerState) :
    (derive_key_call h st).password = st.password ∧
    (derive_key_call h st).salt = st.salt :=
  ⟨rfl, rfl⟩

/-- Claim C6: for every (data, len) argument pair — including the null
pointer (`none`) with length zero — `rust_callback` accepts the pair
without fault (the call is total and returns), does nothing with the
arguments, and does not mutate any caller state. -/
theorem rust_callback_accepts_all :
    ∀ (st : CallerState) (data : Option (List Nat)) (len : Nat),
      rust_callback_call st data len = (st, ()) :=
  fun _ _ _ => rfl

/-- Claim C7: each invocation of `derive_key` issues exactly one foreign
call, and that call is to `hkdf_derive`: the trace of foreign-call events
of one run is the singleton `hkdf_derive` invocation, so the returned key
is the output of exactly one derivation call. -/
theorem derive_key_single_ffi_call (h : Hkdf) (password salt : List Nat) :
    (derive_key_run h password salt).2 =
      [FfiEvent.hkdfCall password password.length salt salt.length] ∧
    (derive_key_run h password salt).2.length = 1 :=
  ⟨rfl, rfl⟩

/-- Claim C8: `derive_key` is a single stateless, synchronous call: it
holds no state across calls — its result depends only on the password and
salt it is given, not on any earlier call — and a repeated call leaves the
caller-visible memory exactly as one completed call does, with the result
fully determined before it is observed. -/
theorem derive_key_stateless_sync (h : Hkdf) (st1 st2 : CallerState)
    (hp : st1.password = st2.password) (hs : st1.salt = st2.salt) :
    (derive_key_call h st1).out = (derive_key_call h st2).out ∧
    derive_key_call h (derive_key_call h st1) = derive_key_call h st1 := by
  constructor
  · simp [derive_key_call, hp, hs]
  · rfl

theorem derive_key_stateless_sync_witness :
    (derive_key_call hkdfNone ⟨[1], [2], []⟩).out =
      (derive_key_call hkdfNone ⟨[1], [2], [5]⟩).out ∧
    derive_key_call hkdfNone (derive_key_call hkdfNone ⟨[1], [2], []⟩) =
      derive_key_call hkdfNone ⟨[1], [2], []⟩ :=
  derive_key_stateless_sync hkdfNone ⟨[1], [2], []⟩ ⟨[1], [2], [5]⟩ rfl rfl

/-- Claim C9: the 64-byte output buffer of `derive_key` is zero-initialized
before the foreign call: every output position the external primitive does
not write holds the value 0 in the returned key, and if the primitive
writes nothing at all the returned key is 64 zero bytes. -/
theorem derive_key_zero_initialized (h : Hkdf) (password salt : List Nat) :
    (∀ i, i < 64 →
      (∀ w ∈ h.writes password password.length salt salt.length, w.1 ≠ i) →
      (derive_key h password salt)[i]? = some 0) ∧
    (h.writes password password.length salt salt.length = [] →
      derive_key h password salt = List.replicate 64 0) := by
  constructor
  · intro i hi hni
    rw [derive_key_getElem?, lastWrite_of_not_written _ _ hni]
    simp [hi]
  · intro hw
    rw [derive_key_eq, hw, applyWrites_nil]

theorem derive_key_zero_initialized_witness :
    (derive_key hkdfNone [] [])[0]? = some 0 ∧
    derive_key hkdfNone [] [] = List.replicate 64 0 :=
  ⟨(derive_key_zero_initialized hkdfNone [] []).1 0 (by decide) (by decide),
   (derive_key_zero_initialized hkdfNone [] []).2 rfl⟩

/-- Claim C10: `rust_callback` is input-independent and total: for every
(data, len) it terminates with the same (unit) result and the same
unchanged caller state as for any other (data, len) — in particular its
behaviour does not depend on the bytes the data pointer points to (it
never dereferences the pointer). -/
theorem rust_callback_input_independent :
    ∀ (st : CallerState) (d1 : Option (List Nat)) (l1 : Nat)
      (d2 : Option (List Nat)) (l2 : Nat),
      rust_callback_call st d1 l1 = rust_callback_call st d2 l2 :=
  fun _ _ _ _ _ => rfl

end LanguageBridges
